import Mathlib

/-!
Verification of the GST invoice engine in `InvoiceApp.py`.

The relevant parts of the program are embedded shallowly:

* monetary values are exact rationals (`ℚ`); the program computes with
  Python numbers and every claim checked here is an algebraic identity of
  the arithmetic the source writes down;
* Python `int()` is truncating division of the rational's numerator by its
  denominator (`pyInt`), Python `round()` is round-half-to-even (`pyRound`),
  Python `//` and `%` on nonnegative integers are `Nat` division and modulo;
* Python `str.strip()` and `str.lower()` are modelled character-list-wise
  (`pyStrip`, `pyLower`), and Python list indexing `xs[i]` is `List.get?`,
  so that an out-of-range index shows up as `none`;
* the Supabase counter table and the aggregation input are explicit data
  (`CounterDb`, `RawItem`), and the two-step SELECT/UPDATE of the invoice
  counter is a small state machine whose interleavings can be enumerated.
-/

namespace InvoiceApp

/-- Model of Python `str.strip()`: drop surrounding whitespace characters. -/
def pyStrip (s : String) : String :=
  String.mk (((s.data.dropWhile Char.isWhitespace).reverse.dropWhile Char.isWhitespace).reverse)

/-- Model of Python `str.lower()`: lower-case every character. -/
def pyLower (s : String) : String :=
  String.mk (s.data.map Char.toLower)

/-- Source line 477: `company_state.strip().lower() == customer_state.strip().lower()`. -/
def is_intrastate (company_state customer_state : String) : Bool :=
  pyLower (pyStrip company_state) == pyLower (pyStrip customer_state)

/-- The tax split that the program renders (source lines 213-219 and 485-489):
either CGST/SGST halves or a single IGST amount. -/
inductive TaxSplit where
  | Intrastate (cgst sgst : ℚ)
  | Interstate (igst : ℚ)
  deriving DecidableEq, Repr

/-- Source lines 213-219 (and 485-489): if `is_intrastate` then
`cgst = sgst = total_tax / 2`, else `igst = total_tax`. -/
def computeSplit (company_state customer_state : String) (total_tax : ℚ) : TaxSplit :=
  if is_intrastate company_state customer_state then
    TaxSplit.Intrastate (total_tax / 2) (total_tax / 2)
  else
    TaxSplit.Interstate total_tax

/-- Sum of the components of a tax split. -/
def TaxSplit.components_sum : TaxSplit → ℚ
  | TaxSplit.Intrastate cgst sgst => cgst + sgst
  | TaxSplit.Interstate igst => igst

/-- One line item of the draft invoice, as assembled by the `Add Item`
handler (source lines 371-380): the derived figures are stored alongside
the inputs. Text fields are irrelevant to the totals and omitted. -/
structure Item where
  quantity : ℚ
  rate : ℚ
  taxable_value : ℚ
  gst_rate : ℚ
  tax_amount : ℚ
  total : ℚ
  deriving Repr

/-- Source lines 367-369: `taxable_value = quantity * rate`,
`tax_amount = (taxable_value * gst_rate) / 100`, `total = taxable_value + tax_amount`. -/
def mkItem (quantity rate gst_rate : ℚ) : Item :=
  let taxable_value := quantity * rate
  let tax_amount := taxable_value * gst_rate / 100
  let total := taxable_value + tax_amount
  ⟨quantity, rate, taxable_value, gst_rate, tax_amount, total⟩

/-- Source line 472: `subtotal = sum(item['taxable_value'] for item in items_list)`. -/
def subtotal (items : List Item) : ℚ :=
  (items.map Item.taxable_value).sum

/-- Source line 473: `total_tax = sum(item['tax_amount'] for item in items_list)`. -/
def total_tax (items : List Item) : ℚ :=
  (items.map Item.tax_amount).sum

/-- Source line 474: `grand_total = sum(item['total'] for item in items_list)`. -/
def grand_total (items : List Item) : ℚ :=
  (items.map Item.total).sum

/-- Word table `ones` of `number_to_words` (source line 42). -/
def ones : List String :=
  ["", "One", "Two", "Three", "Four", "Five", "Six", "Seven", "Eight", "Nine"]

/-- Word table `tens` of `number_to_words` (source line 43). -/
def tens : List String :=
  ["", "", "Twenty", "Thirty", "Forty", "Fifty", "Sixty", "Seventy", "Eighty", "Ninety"]

/-- Word table `teens` of `number_to_words` (source line 44). -/
def teens : List String :=
  ["Ten", "Eleven", "Twelve", "Thirteen", "Fourteen", "Fifteen", "Sixteen", "Seventeen",
   "Eighteen", "Nineteen"]

/-- The body of `convert_below_thousand` (source lines 46-56) on inputs below
one hundred; table indexing is `List.get?` so an out-of-range index is `none`. -/
def below_hundred (n : Nat) : Option String :=
  if n = 0 then some ""
  else if n < 10 then ones.get? n
  else if n < 20 then teens.get? (n - 10)
  else
    (tens.get? (n / 10)).bind fun t =>
      if n % 10 ≠ 0 then (ones.get? (n % 10)).map fun o => t ++ " " ++ o
      else some t

/-- Source lines 46-56, `convert_below_thousand`. Its single recursive call is
on `n % 100 < 100`, which never reaches the hundreds branch again, so the
call is embedded as `below_hundred`, the restriction of the function to
inputs below one hundred; on inputs below one hundred the two agree branch
for branch. -/
def convert_below_thousand (n : Nat) : Option String :=
  if n < 100 then below_hundred n
  else
    (ones.get? (n / 100)).bind fun h =>
      if n % 100 ≠ 0 then (below_hundred (n % 100)).map fun r => h ++ " Hundred" ++ (" " ++ r)
      else some (h ++ " Hundred")

/-- One grouping block of source lines 67-83: the running result string and
the remaining rupee amount; when `scale ≤ remaining`, convert
`remaining / scale`, append the scale word, and continue with
`remaining % scale` (Lean's `Int` `/` and `%` agree with Python `//` and
`%` here). The guards keep the converted group nonnegative, so the `toNat`
coercion is exact. -/
def groupStep (scaleWord : String) (scale : ℤ) (acc : Option (String × ℤ)) :
    Option (String × ℤ) :=
  acc.bind fun sr =>
    if scale ≤ sr.2 then
      (convert_below_thousand (sr.2 / scale).toNat).map fun c =>
        (sr.1 ++ c ++ scaleWord, sr.2 % scale)
    else some sr

/-- Source lines 65-89: the crore/lakh/thousand blocks, the remainder block
(line 86-87), and `result.strip() + " Rupees"` (line 89). -/
def rupeesWords (rupees : ℤ) : Option String :=
  (groupStep " Thousand " 1000
      (groupStep " Lakh " 100000
        (groupStep " Crore " 10000000 (some ("", rupees))))).bind fun sr =>
    (if 0 < sr.2 then (convert_below_thousand sr.2.toNat).map fun c => sr.1 ++ c
     else some sr.1).map fun s4 =>
      pyStrip s4 ++ " Rupees"

/-- Source lines 91-94: append `" and <paise> Paise"` when `paise > 0`,
then `" Only"`. -/
def wordsCore (rupees paise : ℤ) : Option String :=
  (rupeesWords rupees).bind fun base =>
    if 0 < paise then
      (convert_below_thousand paise.toNat).map fun p => base ++ " and " ++ p ++ " Paise Only"
    else some (base ++ " Only")

/-- Model of Python `int()` on a rational: truncation toward zero. -/
def pyInt (q : ℚ) : ℤ :=
  q.num.tdiv q.den

/-- Floor of a rational, written on the numerator and denominator
(Lean's `Int` division already rounds toward negative infinity). -/
def ratFloor (q : ℚ) : ℤ :=
  q.num / q.den

/-- Model of Python `round()` on a rational: round half to even. -/
def pyRound (q : ℚ) : ℤ :=
  if q - (ratFloor q : ℚ) < 1 / 2 then ratFloor q
  else if 1 / 2 < q - (ratFloor q : ℚ) then ratFloor q + 1
  else if ratFloor q % 2 = 0 then ratFloor q else ratFloor q + 1

/-- Source lines 40-94, `number_to_words`: split the amount into integer
rupees (`int`) and rounded paise (`round((num - rupees) * 100)`), then
render both through the word tables. -/
def number_to_words (num : ℚ) : Option String :=
  if num = 0 then some "Zero Rupees Only"
  else
    let rupees := pyInt num
    let paise := pyRound ((num - (rupees : ℚ)) * 100)
    wordsCore rupees paise

/-- Python `f"INV-{n:05d}"`: decimal digits zero-padded to width at least five. -/
def invFormat (n : Nat) : String :=
  "INV-" ++ (String.mk (List.replicate (5 - (toString n).length) (Char.ofNat 48)) ++ toString n)

/-- The `invoice_counter` table as the sequencer sees it: reachable with an
optional counter row, or unreachable (every query raises). -/
inductive CounterDb where
  | ok (row : Option Nat)
  | down
  deriving DecidableEq, Repr

/-- What one call to `get_next_invoice_number` produces: the string handed to
the caller, the table afterwards, and the error messages shown on screen. -/
structure SeqResult where
  value : String
  db : CounterDb
  errors : List String
  deriving DecidableEq, Repr

/-- Source lines 97-112, `get_next_invoice_number`: read the counter row,
write back `current + 1` and return `INV-{current+1:05d}`; insert `1` and
return `INV-00001` when no row exists; on an exception show an error and
return `INV-` followed by the `%Y%m%d%H%M%S` timestamp (modelled as the
decimal digits of `now`). -/
def get_next_invoice_number (db : CounterDb) (now : Nat) : SeqResult :=
  match db with
  | CounterDb.ok (some current) =>
      ⟨invFormat (current + 1), CounterDb.ok (some (current + 1)), []⟩
  | CounterDb.ok none =>
      ⟨"INV-00001", CounterDb.ok (some 1), []⟩
  | CounterDb.down =>
      ⟨"INV-" ++ toString now, CounterDb.down, ["Error getting invoice number"]⟩

/-- Two concurrent calls to `get_next_invoice_number` against one counter
row: each caller runs SELECT (program counter 0: copy the shared counter
into a local) and then UPDATE (program counter 1: store local + 1), exactly
the two statements of source lines 100-104. -/
structure SeqSys where
  counter : Nat
  pcA : Nat
  localA : Nat
  pcB : Nat
  localB : Nat
  deriving DecidableEq, Repr

/-- One step of caller A: SELECT then UPDATE, as in source lines 100-104. -/
def stepA (s : SeqSys) : SeqSys :=
  match s.pcA with
  | 0 => { s with localA := s.counter, pcA := 1 }
  | 1 => { s with counter := s.localA + 1, pcA := 2 }
  | _ => s

/-- One step of caller B: SELECT then UPDATE, as in source lines 100-104. -/
def stepB (s : SeqSys) : SeqSys :=
  match s.pcB with
  | 0 => { s with localB := s.counter, pcB := 1 }
  | 1 => { s with counter := s.localB + 1, pcB := 2 }
  | _ => s

/-- Run an interleaving: `false` schedules caller A, `true` caller B. -/
def runSched (sched : List Bool) (s : SeqSys) : SeqSys :=
  sched.foldl (fun st tid => if tid then stepB st else stepA st) s

/-- The invoice number a completed caller hands back (source line 105):
`INV-{local + 1:05d}`. -/
def callerValue (localRead : Nat) : String :=
  invFormat (localRead + 1)

/-- A line item of a persisted invoice record as the HSN analytics tab reads
it back (source lines 776-782): every field is fetched with `dict.get` and
may be absent. -/
structure RawItem where
  hsn_code : Option String
  product_name : Option String
  quantity : Option ℚ
  taxable_value : Option ℚ
  gst_rate : Option ℚ
  tax_amount : Option ℚ
  total : Option ℚ
  deriving DecidableEq, Repr

/-- A persisted invoice record, reduced to the fields the aggregation reads. -/
structure InvoiceRec where
  items : List RawItem
  deriving DecidableEq, Repr

/-- One accumulated HSN summary row (source lines 785-794). -/
structure HsnRow where
  product_names : List String
  total_quantity : ℚ
  total_taxable_value : ℚ
  total_tax : ℚ
  total_value : ℚ
  avg_gst_rate : List ℚ
  deriving DecidableEq, Repr

/-- The freshly initialised row of source lines 785-794. -/
def emptyRow : HsnRow :=
  ⟨[], 0, 0, 0, 0, []⟩

/-- The grouping key of an item (source line 776): `item.get('hsn_code', 'Unknown')`. -/
def keyOf (it : RawItem) : String :=
  it.hsn_code.getD "Unknown"

/-- Source lines 796-801: fold one item into its row; the Python `set` of
product names is a list grown only with unseen names, and `avg_gst_rate`
collects the raw `gst_rate` values. -/
def addItem (r : HsnRow) (it : RawItem) : HsnRow :=
  { product_names :=
      if it.product_name.getD "Unknown" ∈ r.product_names then r.product_names
      else r.product_names ++ [it.product_name.getD "Unknown"]
    total_quantity := r.total_quantity + it.quantity.getD 0
    total_taxable_value := r.total_taxable_value + it.taxable_value.getD 0
    total_tax := r.total_tax + it.tax_amount.getD 0
    total_value := r.total_value + it.total.getD 0
    avg_gst_rate := r.avg_gst_rate ++ [it.gst_rate.getD 0] }

/-- Update the association list behind the `hsn_data` dict: modify the row
of an existing key in place, or append a fresh key with an initialised row
(source lines 784-801). -/
def updRow (m : List (String × HsnRow)) (key : String) (it : RawItem) : List (String × HsnRow) :=
  match m with
  | [] => [(key, addItem emptyRow it)]
  | (k, r) :: rest =>
      if k = key then (k, addItem r it) :: rest
      else (k, r) :: updRow rest key it

/-- Dict lookup on the association list. -/
def hsnLookup (m : List (String × HsnRow)) (code : String) : Option HsnRow :=
  match m with
  | [] => none
  | (k, r) :: rest => if k = code then some r else hsnLookup rest code

/-- Every line item of the fetched invoices, in the order the nested loop of
source lines 773-775 visits them. -/
def allItems (invs : List InvoiceRec) : List RawItem :=
  (invs.map InvoiceRec.items).flatten

/-- The aggregation loop body applied to a list of items, starting from a
given dict state. -/
def hsnFold (m : List (String × HsnRow)) (l : List RawItem) : List (String × HsnRow) :=
  l.foldl (fun acc it => updRow acc (keyOf it) it) m

/-- Source lines 773-801: the HSN aggregation loop over every item of every
fetched invoice, starting from the empty dict. -/
def hsn_data (invs : List InvoiceRec) : List (String × HsnRow) :=
  hsnFold [] (allItems invs)

/-- The items of `l` that the aggregation groups under `code`. -/
def matchingItems (l : List RawItem) (code : String) : List RawItem :=
  l.filter fun it => keyOf it == code

/-- Combining a pre-existing row (if any) with the items grouped under one
key: the specification value of one dict entry, used to state what the
fold computes. -/
def mergeRow : Option HsnRow → List RawItem → Option HsnRow
  | some r, l => some (l.foldl addItem r)
  | none, [] => none
  | none, it :: tl => some ((it :: tl).foldl addItem emptyRow)

/-- Source line 815: the displayed average GST rate,
`sum(avg_gst_rate) / len(avg_gst_rate)` with `0` for an empty list. -/
def avgGstRate (r : HsnRow) : ℚ :=
  if r.avg_gst_rate = [] then 0 else r.avg_gst_rate.sum / r.avg_gst_rate.length

/-- Sum of one numeric column over all rows of the aggregation result. -/
def rowsTaxableSum (m : List (String × HsnRow)) : ℚ :=
  (m.map fun kr => kr.2.total_taxable_value).sum

/-- Concrete input: one line item built by the `Add Item` handler. -/
def exampleItems : List Item :=
  [mkItem 2 10 5]

/-- Concrete historical line item with the required `hsn_code` and
`quantity` fields missing, as a malformed record would present them. -/
def malformedItem : RawItem :=
  ⟨none, some "Widget", none, some 50, some 18, some 9, some 59⟩

/-- Concrete aggregation input holding the malformed record. -/
def malformedInvs : List InvoiceRec :=
  [⟨[malformedItem]⟩]

/-- Concrete line item under HSN code 8471, first invoice. -/
def hsnItemA : RawItem :=
  ⟨some "8471", some "Laptop", some 2, some 200, some 18, some 36, some 236⟩

/-- Concrete line item under HSN code 8471, second invoice. -/
def hsnItemB : RawItem :=
  ⟨some "8471", some "Desktop", some 3, some 600, some 12, some 72, some 672⟩

/-- Concrete aggregation input: two invoices sharing HSN code 8471. -/
def hsnInvs : List InvoiceRec :=
  [⟨[hsnItemA]⟩, ⟨[hsnItemB]⟩]

/-- The single row the aggregation builds for HSN code 8471 on `hsnInvs`. -/
def hsnRow0 : HsnRow :=
  addItem (addItem emptyRow hsnItemA) hsnItemB

/-- Lower-casing a string yields the empty string only for the empty string. -/
theorem pyLower_eq_empty_iff (s : String) : pyLower s = "" ↔ s = "" := by
  unfold pyLower
  constructor
  · intro h
    have hd : (s.data.map Char.toLower) = [] := congrArg String.data h
    have : s.data = [] := List.map_eq_nil_iff.mp hd
    cases s
    simp_all
  · intro h
    subst h
    rfl

/-- C1: the split is Intrastate with CGST = SGST = T / 2 exactly when the
two states agree after stripping and lower-casing, it is Interstate with
IGST = T otherwise, and in both cases the components sum to T exactly. -/
theorem tax_split_rule (company_state customer_state : String) (T : ℚ) :
    (computeSplit company_state customer_state T = TaxSplit.Intrastate (T / 2) (T / 2) ↔
      pyLower (pyStrip company_state) = pyLower (pyStrip customer_state)) ∧
    (computeSplit company_state customer_state T = TaxSplit.Intrastate (T / 2) (T / 2) ∨
      computeSplit company_state customer_state T = TaxSplit.Interstate T) ∧
    (computeSplit company_state customer_state T).components_sum = T := by
  unfold computeSplit is_intrastate
  by_cases h : pyLower (pyStrip company_state) = pyLower (pyStrip customer_state)
  · rw [if_pos (by simp [h])]
    exact ⟨⟨fun _ => h, fun _ => rfl⟩, Or.inl rfl, by show T / 2 + T / 2 = T; ring⟩
  · rw [if_neg (by simp [h])]
    exact ⟨⟨fun hc => absurd hc (by simp), fun hc => absurd hc h⟩, Or.inr rfl, rfl⟩

/-- C2 counterexample: with both states empty the code takes the Intrastate
branch (the two stripped, lower-cased states compare equal), so the split
is CGST = SGST = 5 on a total tax of 10, not IGST = 10 as the claim says. -/
theorem empty_states_counterexample :
    computeSplit "" "" 10 = TaxSplit.Intrastate 5 5 ∧
    computeSplit "" "" 10 ≠ TaxSplit.Interstate 10 := by
  have h : is_intrastate "" "" = true := rfl
  unfold computeSplit
  rw [h]
  constructor
  · simp only [if_true]
    norm_num
  · simp

/-- C2 amended: an empty state on exactly one side makes the split
Interstate with IGST = T, because the stripped, lower-cased strings differ;
but when both states are empty the code compares two empty strings as equal
and yields an Intrastate split with CGST = SGST = T / 2. -/
theorem empty_states_policy (s c : String) (T : ℚ) :
    (pyStrip s = "" → pyStrip c ≠ "" → computeSplit s c T = TaxSplit.Interstate T) ∧
    (pyStrip c = "" → pyStrip s ≠ "" → computeSplit s c T = TaxSplit.Interstate T) ∧
    (pyStrip s = "" → pyStrip c = "" → computeSplit s c T = TaxSplit.Intrastate (T / 2) (T / 2)) := by
  refine ⟨fun hs hc => ?_, fun hc hs => ?_, fun hs hc => ?_⟩
  · unfold computeSplit is_intrastate
    rw [if_neg]
    intro hbeq
    have heq : pyLower (pyStrip s) = pyLower (pyStrip c) := by
      exact eq_of_beq (by simpa using hbeq)
    rw [hs] at heq
    exact hc ((pyLower_eq_empty_iff (pyStrip c)).mp heq.symm)
  · unfold computeSplit is_intrastate
    rw [if_neg]
    intro hbeq
    have heq : pyLower (pyStrip s) = pyLower (pyStrip c) := by
      exact eq_of_beq (by simpa using hbeq)
    rw [hc] at heq
    exact hs ((pyLower_eq_empty_iff (pyStrip s)).mp heq)
  · unfold computeSplit is_intrastate
    rw [hs, hc, if_pos (by simp)]

/-- Witness for the amended C2 at concrete states and T = 7. -/
theorem empty_states_policy_witness :
    computeSplit "" " X " 7 = TaxSplit.Interstate 7 ∧
    computeSplit " A " "" 7 = TaxSplit.Interstate 7 ∧
    computeSplit "" "" 7 = TaxSplit.Intrastate (7 / 2) (7 / 2) :=
  ⟨(empty_states_policy "" " X " 7).1 (by decide) (by decide),
   (empty_states_policy " A " "" 7).2.1 (by decide) (by decide),
   (empty_states_policy "" "" 7).2.2 (by decide) (by decide)⟩

/-- C3: when every stored line figure satisfies the Add-Item equations, the
three displayed totals satisfy subtotal + total_tax = grand_total exactly. -/
theorem totals_identity (items : List Item) (_hne : items ≠ [])
    (h : ∀ it ∈ items,
      it.taxable_value = it.quantity * it.rate ∧
      it.tax_amount = it.taxable_value * it.gst_rate / 100 ∧
      it.total = it.taxable_value + it.tax_amount) :
    subtotal items + total_tax items = grand_total items := by
  clear _hne
  induction items with
  | nil => simp [subtotal, total_tax, grand_total]
  | cons hd tl ih =>
      have hhd := h hd (List.mem_cons_self hd tl)
      have htl := ih fun it hit => h it (List.mem_cons_of_mem hd hit)
      simp only [subtotal, total_tax, grand_total, List.map_cons, List.sum_cons] at htl ⊢
      rw [hhd.2.2]
      linarith

/-- Witness for C3 on the one-line invoice built by `mkItem 2 10 5`. -/
theorem totals_identity_witness :
    subtotal exampleItems + total_tax exampleItems = grand_total exampleItems :=
  totals_identity exampleItems (by simp [exampleItems]) (by
    intro it hit
    simp only [exampleItems, mkItem, List.mem_singleton] at hit
    subst hit
    exact ⟨rfl, rfl, rfl⟩)

/-- C4: the sequencer is a SELECT-then-UPDATE pair without any transaction,
so the interleaving read-A, read-B, write-A, write-B of two concurrent
calls on a fresh counter at 5 completes both callers and hands the same
number INV-00006 to both — the returned numbers are not all distinct. -/
theorem sequencer_race :
    runSched [false, true, false, true] ⟨5, 0, 0, 0, 0⟩ = ⟨6, 2, 5, 2, 5⟩ ∧
    callerValue 5 = "INV-00006" := by
  constructor
  · rfl
  · rfl

/-- C7 corrected: on an unreachable counter the sequencer returns the
timestamp identifier and shows an error message on screen, but the value
handed back is a bare string carrying no out-of-sequence flag. -/
theorem fallback_shape (now : Nat) :
    (get_next_invoice_number CounterDb.down now).value = "INV-" ++ toString now ∧
    (get_next_invoice_number CounterDb.down now).errors ≠ [] := by
  exact ⟨rfl, by simp [get_next_invoice_number]⟩

/-- C7 counterexample: the fallback result for timestamp 20261012093000 and
the regular result for counter value 20261012092999 are the identical
string, so no flag in the returned result distinguishes the fallback; the
error report exists only on screen, not in the returned value. -/
theorem fallback_not_flagged :
    (get_next_invoice_number CounterDb.down 20261012093000).value =
      (get_next_invoice_number (CounterDb.ok (some 20261012092999)) 0).value ∧
    (get_next_invoice_number CounterDb.down 20261012093000).errors ≠ [] ∧
    (get_next_invoice_number (CounterDb.ok (some 20261012092999)) 0).errors = [] := by
  refine ⟨?_, by simp [get_next_invoice_number], rfl⟩
  rfl

/-- The floor written on numerator and denominator is the floor. -/
theorem ratFloor_eq_floor (q : ℚ) : ratFloor q = ⌊q⌋ :=
  (Rat.floor_def).symm

/-- On nonnegative rationals Python truncation agrees with the floor. -/
theorem pyInt_eq_floor (q : ℚ) (h : 0 ≤ q) : pyInt q = ⌊q⌋ := by
  unfold pyInt
  rw [Int.tdiv_eq_ediv (Rat.num_nonneg.mpr h) (Int.natCast_nonneg q.den)]
  exact (Rat.floor_def).symm

/-- Python truncation of an integer is that integer. -/
theorem pyInt_intCast (n : ℤ) : pyInt ((n : ℚ)) = n := by
  unfold pyInt
  rw [Rat.num_intCast, Rat.den_intCast]
  simp

/-- Python rounding of an integer is that integer. -/
theorem pyRound_intCast (n : ℤ) : pyRound ((n : ℚ)) = n := by
  unfold pyRound
  rw [ratFloor_eq_floor, Int.floor_intCast, sub_self]
  norm_num

/-- Python rounding never exceeds a strict integer upper bound. -/
theorem pyRound_le_of_lt (q : ℚ) (n : ℤ) (h : q < (n : ℚ)) : pyRound q ≤ n := by
  have hf : ⌊q⌋ < n := Int.floor_lt.mpr h
  unfold pyRound
  rw [ratFloor_eq_floor]
  split_ifs <;> omega

/-- Python rounding of a nonnegative rational is nonnegative. -/
theorem pyRound_nonneg (q : ℚ) (h : 0 ≤ q) : 0 ≤ pyRound q := by
  have hf : 0 ≤ ⌊q⌋ := Int.floor_nonneg.mpr h
  unfold pyRound
  rw [ratFloor_eq_floor]
  split_ifs <;> omega

/-- Between 99.5 inclusive and 100 exclusive, Python rounding gives 100
(the floor is the odd 99, so an exact half also rounds up to the even 100). -/
theorem pyRound_eq_hundred (x : ℚ) (h1 : (199 / 2 : ℚ) ≤ x) (h2 : x < 100) :
    pyRound x = 100 := by
  have hf : ⌊x⌋ = 99 := by
    apply Int.floor_eq_iff.mpr
    constructor
    · push_cast
      linarith
    · push_cast
      linarith
  unfold pyRound
  rw [ratFloor_eq_floor, hf]
  split_ifs with ha hb hc
  · exfalso
    push_cast at ha
    linarith
  · omega
  · exfalso
    omega
  · omega

/-- The Python fractional part `q - int(q)` of a nonnegative rational lies
in the half-open unit interval. -/
theorem frac_nonneg_lt_one (q : ℚ) (h : 0 ≤ q) :
    0 ≤ q - (pyInt q : ℚ) ∧ q - (pyInt q : ℚ) < 1 := by
  rw [pyInt_eq_floor q h]
  constructor
  · have := Int.floor_le q
    linarith
  · have := Int.lt_floor_add_one q
    linarith

/-- Unfolding `number_to_words` on a nonzero amount. -/
theorem number_to_words_eq (q : ℚ) (h0 : q ≠ 0) :
    number_to_words q = wordsCore (pyInt q) (pyRound ((q - (pyInt q : ℚ)) * 100)) := by
  unfold number_to_words
  rw [if_neg h0]

/-- On a nonzero integer amount the paise part is zero. -/
theorem number_to_words_intCast (n : ℤ) (h : n ≠ 0) :
    number_to_words ((n : ℚ)) = wordsCore n 0 := by
  rw [number_to_words_eq _ (Int.cast_ne_zero.mpr h), pyInt_intCast]
  rw [show ((n : ℚ) - (n : ℚ)) * 100 = ((0 : ℤ) : ℚ) by push_cast; ring]
  rw [pyRound_intCast]

/-- An in-range index into a list is hit. -/
theorem get?_isSome_of_lt {α : Type} (l : List α) (n : Nat) (h : n < l.length) :
    (l.get? n).isSome := by
  rw [List.get?_eq_get h]
  rfl

/-- Below one hundred every word-table index is in range. -/
theorem below_hundred_isSome (n : Nat) (h : n < 100) : (below_hundred n).isSome := by
  unfold below_hundred
  have hones : ones.length = 10 := rfl
  have htens : tens.length = 10 := rfl
  have hteens : teens.length = 10 := rfl
  split_ifs with h0 h1 h2 h3
  · rfl
  · exact get?_isSome_of_lt _ _ (by omega)
  · exact get?_isSome_of_lt _ _ (by omega)
  · obtain ⟨t, ht⟩ := Option.isSome_iff_exists.mp (get?_isSome_of_lt tens (n / 10) (by omega))
    rw [ht]
    simp only [Option.some_bind]
    obtain ⟨o, ho⟩ := Option.isSome_iff_exists.mp (get?_isSome_of_lt ones (n % 10) (by omega))
    rw [ho]
    rfl
  · obtain ⟨t, ht⟩ := Option.isSome_iff_exists.mp (get?_isSome_of_lt tens (n / 10) (by omega))
    rw [ht]
    rfl

/-- Below one thousand every word-table index is in range. -/
theorem convert_below_thousand_isSome (n : Nat) (h : n ≤ 999) :
    (convert_below_thousand n).isSome := by
  unfold convert_below_thousand
  have hones : ones.length = 10 := rfl
  split_ifs with h1 h2
  · exact below_hundred_isSome n h1
  · obtain ⟨hd, hhd⟩ := Option.isSome_iff_exists.mp (get?_isSome_of_lt ones (n / 100) (by omega))
    rw [hhd]
    simp only [Option.some_bind]
    obtain ⟨r, hr⟩ := Option.isSome_iff_exists.mp (below_hundred_isSome (n % 100) (by omega))
    rw [hr]
    rfl
  · obtain ⟨hd, hhd⟩ := Option.isSome_iff_exists.mp (get?_isSome_of_lt ones (n / 100) (by omega))
    rw [hhd]
    rfl

/-- A grouping block on a state with a convertible group succeeds and leaves
a smaller nonnegative remainder below the scale. -/
theorem groupStep_some (w : String) (scale : ℤ) (hpos : 0 < scale) (s : String) (r : ℤ)
    (h0 : 0 ≤ r) (h1 : r / scale ≤ 999) :
    ∃ s2 r2, groupStep w scale (some (s, r)) = some (s2, r2) ∧
      0 ≤ r2 ∧ r2 < scale ∧ r2 ≤ r := by
  unfold groupStep
  simp only [Option.some_bind]
  split_ifs with hc
  · have hdiv : (0 : ℤ) ≤ r / scale := Int.ediv_nonneg h0 (le_of_lt hpos)
    obtain ⟨c, hcv⟩ := Option.isSome_iff_exists.mp
      (convert_below_thousand_isSome (r / scale).toNat (by omega))
    rw [hcv]
    refine ⟨s ++ c ++ w, r % scale, rfl, Int.emod_nonneg r (ne_of_gt hpos),
      Int.emod_lt_of_pos r hpos, ?_⟩
    have h2 : r % scale = r - scale * (r / scale) := Int.emod_def r scale
    have h3 : 0 ≤ scale * (r / scale) := mul_nonneg (le_of_lt hpos) hdiv
    linarith
  · exact ⟨s, r, rfl, h0, lt_of_not_le hc, le_refl r⟩

/-- Below ten billion rupees every group handed to the word tables is below
one thousand, so the rupee rendering succeeds. -/
theorem rupeesWords_isSome (r : ℤ) (h0 : 0 ≤ r) (h : r < 10000000000) :
    (rupeesWords r).isSome := by
  unfold rupeesWords
  obtain ⟨s1, r1, e1, h10, h11, _⟩ :=
    groupStep_some " Crore " 10000000 (by norm_num) "" r h0 (by omega)
  rw [e1]
  obtain ⟨s2, r2, e2, h20, h21, _⟩ :=
    groupStep_some " Lakh " 100000 (by norm_num) s1 r1 h10 (by omega)
  rw [e2]
  obtain ⟨s3, r3, e3, h30, h31, _⟩ :=
    groupStep_some " Thousand " 1000 (by norm_num) s2 r2 h20 (by omega)
  rw [e3]
  simp only [Option.some_bind]
  split_ifs with h4
  · obtain ⟨c, hc⟩ :=
      Option.isSome_iff_exists.mp (convert_below_thousand_isSome r3.toNat (by omega))
    rw [hc]
    rfl
  · rfl

/-- C5 amended: the conversion is defined for every nonnegative amount below
ten billion rupees; the rupee groups then all lie below one thousand and the
rounded paise lie below or at one hundred, so every table index is in range. -/
theorem words_defined (q : ℚ) (h0 : 0 ≤ q) (h1 : q < 10000000000) :
    (number_to_words q).isSome := by
  by_cases hq : q = 0
  · rw [hq]
    rfl
  · rw [number_to_words_eq q hq]
    have hr0 : 0 ≤ pyInt q := by
      rw [pyInt_eq_floor q h0]
      exact Int.floor_nonneg.mpr h0
    have hrlt : pyInt q < 10000000000 := by
      rw [pyInt_eq_floor q h0]
      exact Int.floor_lt.mpr (by exact_mod_cast h1)
    have hfrac := frac_nonneg_lt_one q h0
    have hple : pyRound ((q - (pyInt q : ℚ)) * 100) ≤ 100 := by
      apply pyRound_le_of_lt
      push_cast
      nlinarith [hfrac.2]
    unfold wordsCore
    obtain ⟨base, hbase⟩ := Option.isSome_iff_exists.mp (rupeesWords_isSome _ hr0 hrlt)
    rw [hbase]
    simp only [Option.some_bind]
    split_ifs with hp
    · obtain ⟨p, hpv⟩ := Option.isSome_iff_exists.mp
        (convert_below_thousand_isSome (pyRound ((q - (pyInt q : ℚ)) * 100)).toNat (by omega))
      rw [hpv]
      rfl
    · rfl

/-- Witness for the amended C5 at the amount 100. -/
theorem words_defined_witness : (number_to_words (100 : ℚ)).isSome :=
  words_defined 100 (by norm_num) (by norm_num)

/-- C5 counterexample: at ten billion rupees — inside the range the claim
asserts — the crore group is 1000, whose rendering indexes the ones table at
10, out of range, so the conversion fails. -/
theorem words_break_at_ten_billion : number_to_words (10000000000 : ℚ) = none := by
  rw [show (10000000000 : ℚ) = ((10000000000 : ℤ) : ℚ) by norm_num]
  rw [number_to_words_intCast _ (by norm_num)]
  decide

/-- C6: the sanity values of the amount-in-words conversion, including the
Indian grouping of 1234567.89. -/
theorem words_sanity :
    number_to_words 0 = some "Zero Rupees Only" ∧
    number_to_words 100 = some "One Hundred Rupees Only" ∧
    number_to_words 100000 = some "One Lakh Rupees Only" ∧
    number_to_words ((123456789 : ℚ) / 100) =
      some "Twelve Lakh Thirty Four Thousand Five Hundred Sixty Seven Rupees and Eighty Nine Paise Only" := by
  refine ⟨?_, ?_, ?_, ?_⟩
  · unfold number_to_words
    rw [if_pos rfl]
  · rw [show (100 : ℚ) = ((100 : ℤ) : ℚ) by norm_num,
      number_to_words_intCast _ (by norm_num)]
    decide
  · rw [show (100000 : ℚ) = ((100000 : ℤ) : ℚ) by norm_num,
      number_to_words_intCast _ (by norm_num)]
    decide
  · rw [number_to_words_eq _ (by norm_num)]
    have hpy : pyInt ((123456789 : ℚ) / 100) = 1234567 := by
      rw [pyInt_eq_floor _ (by norm_num)]
      apply Int.floor_eq_iff.mpr
      constructor
      · push_cast
        norm_num
      · push_cast
        norm_num
    rw [hpy]
    rw [show (((123456789 : ℚ) / 100) - ((1234567 : ℤ) : ℚ)) * 100 = ((89 : ℤ) : ℚ) by
      push_cast; ring_nf]
    rw [pyRound_intCast]
    decide

/-- Reassociation of the paise suffix into one literal. -/
theorem append_paise (s : String) :
    s ++ " and " ++ "One Hundred" ++ " Paise Only" = s ++ " and One Hundred Paise Only" := by
  apply String.ext
  simp only [String.data_append, List.append_assoc]
  exact congrArg (fun l => s.data ++ l) (by decide)

/-- C10: whenever the fractional part is at least 0.995 the paise round to
one hundred, and the conversion renders the unrounded rupees followed by
"and One Hundred Paise Only" instead of carrying into the rupee part. -/
theorem paise_overflow (q : ℚ) (h0 : 0 < q) (h1 : (995 / 1000 : ℚ) ≤ q - (pyInt q : ℚ)) :
    number_to_words q = (rupeesWords (pyInt q)).map fun s =>
      s ++ " and One Hundred Paise Only" := by
  have hq0 : (0 : ℚ) ≤ q := le_of_lt h0
  rw [number_to_words_eq q (ne_of_gt h0)]
  have hfrac := frac_nonneg_lt_one q hq0
  have hp : pyRound ((q - (pyInt q : ℚ)) * 100) = 100 := by
    apply pyRound_eq_hundred
    · linarith
    · linarith
  rw [hp]
  unfold wordsCore
  cases hrw : rupeesWords (pyInt q) with
  | none => rfl
  | some base =>
      simp only [Option.some_bind, Option.map_some']
      rw [if_pos (by norm_num : (0 : ℤ) < 100)]
      have hc : convert_below_thousand ((100 : ℤ)).toNat = some "One Hundred" := by decide
      rw [hc]
      simp only [Option.map_some']
      rw [append_paise]

/-- Witness for C10 at the amount 1.999: one rupee and one hundred paise. -/
theorem paise_overflow_witness :
    number_to_words ((1999 : ℚ) / 1000) = some "One Rupees and One Hundred Paise Only" := by
  have hpy : pyInt ((1999 : ℚ) / 1000) = 1 := by
    rw [pyInt_eq_floor _ (by norm_num)]
    apply Int.floor_eq_iff.mpr
    constructor
    · push_cast
      norm_num
    · push_cast
      norm_num
  rw [paise_overflow ((1999 : ℚ) / 1000) (by norm_num) (by rw [hpy]; push_cast; norm_num)]
  rw [hpy]
  decide

/-- Looking a key up after one dict update: the updated key holds its old
row (or a fresh one) with the item folded in; other keys are untouched. -/
theorem hsnLookup_updRow (m : List (String × HsnRow)) (k : String) (it : RawItem)
    (code : String) :
    hsnLookup (updRow m k it) code =
      if code = k then some (addItem ((hsnLookup m k).getD emptyRow) it)
      else hsnLookup m code := by
  induction m with
  | nil =>
      by_cases h : code = k
      · subst h
        simp [updRow, hsnLookup]
      · simp [updRow, hsnLookup, h, Ne.symm h]
  | cons head tl ih =>
      obtain ⟨k0, r0⟩ := head
      by_cases hk : k0 = k
      · subst hk
        by_cases hc : code = k0
        · subst hc
          simp [updRow, hsnLookup]
        · simp [updRow, hsnLookup, hc, Ne.symm hc]
      · by_cases hc : code = k0
        · subst hc
          simp [updRow, hsnLookup, hk, fun h : code = k => hk (h ▸ rfl)]
        · simp [updRow, hsnLookup, hk, hc, Ne.symm hc, ih]

/-- The aggregation fold, looked up at one key, is the merge of whatever the
starting dict held there with the items grouped under that key. -/
theorem hsnFold_lookup (l : List RawItem) (m : List (String × HsnRow)) (code : String) :
    hsnLookup (hsnFold m l) code = mergeRow (hsnLookup m code) (matchingItems l code) := by
  induction l generalizing m with
  | nil =>
      cases h : hsnLookup m code <;> simp [hsnFold, matchingItems, mergeRow, h]
  | cons it tl ih =>
      have hstep : hsnFold m (it :: tl) = hsnFold (updRow m (keyOf it) it) tl := rfl
      rw [hstep, ih, hsnLookup_updRow]
      by_cases hc : code = keyOf it
      · rw [if_pos hc]
        have hm : matchingItems (it :: tl) code = it :: matchingItems tl code := by
          simp [matchingItems, List.filter_cons, hc]
        rw [hm, ← hc]
        cases h : hsnLookup m code with
        | none => simp [mergeRow]
        | some r => simp [mergeRow]
      · rw [if_neg hc]
        have hc2 : keyOf it ≠ code := fun h => hc h.symm
        have hm : matchingItems (it :: tl) code = matchingItems tl code := by
          simp [matchingItems, List.filter_cons, hc2]
        rw [hm]

/-- The quantity column of a row fold is the starting value plus the sum of
the items' quantities. -/
theorem foldl_addItem_quantity (l : List RawItem) (r : HsnRow) :
    (l.foldl addItem r).total_quantity =
      r.total_quantity + (l.map fun it => it.quantity.getD 0).sum := by
  induction l generalizing r with
  | nil => simp
  | cons it tl ih =>
      rw [List.foldl_cons, ih, List.map_cons, List.sum_cons]
      have h : (addItem r it).total_quantity = r.total_quantity + it.quantity.getD 0 := rfl
      rw [h]
      ring

/-- The taxable-value column of a row fold. -/
theorem foldl_addItem_taxable (l : List RawItem) (r : HsnRow) :
    (l.foldl addItem r).total_taxable_value =
      r.total_taxable_value + (l.map fun it => it.taxable_value.getD 0).sum := by
  induction l generalizing r with
  | nil => simp
  | cons it tl ih =>
      rw [List.foldl_cons, ih, List.map_cons, List.sum_cons]
      have h : (addItem r it).total_taxable_value =
        r.total_taxable_value + it.taxable_value.getD 0 := rfl
      rw [h]
      ring

/-- The tax column of a row fold. -/
theorem foldl_addItem_tax (l : List RawItem) (r : HsnRow) :
    (l.foldl addItem r).total_tax =
      r.total_tax + (l.map fun it => it.tax_amount.getD 0).sum := by
  induction l generalizing r with
  | nil => simp
  | cons it tl ih =>
      rw [List.foldl_cons, ih, List.map_cons, List.sum_cons]
      have h : (addItem r it).total_tax = r.total_tax + it.tax_amount.getD 0 := rfl
      rw [h]
      ring

/-- The collected GST-rate list of a row fold. -/
theorem foldl_addItem_avg (l : List RawItem) (r : HsnRow) :
    (l.foldl addItem r).avg_gst_rate =
      r.avg_gst_rate ++ l.map fun it => it.gst_rate.getD 0 := by
  induction l generalizing r with
  | nil => simp
  | cons it tl ih =>
      rw [List.foldl_cons, ih, List.map_cons]
      have h : (addItem r it).avg_gst_rate = r.avg_gst_rate ++ [it.gst_rate.getD 0] := rfl
      rw [h]
      simp [List.append_assoc]

/-- One dict update leaves the key list unchanged or appends the fresh key. -/
theorem keys_updRow (m : List (String × HsnRow)) (k : String) (it : RawItem) :
    (updRow m k it).map Prod.fst =
      if k ∈ m.map Prod.fst then m.map Prod.fst else m.map Prod.fst ++ [k] := by
  induction m with
  | nil => simp [updRow]
  | cons head tl ih =>
      obtain ⟨k0, r0⟩ := head
      by_cases hk : k0 = k
      · subst hk
        simp [updRow]
      · simp only [updRow, if_neg hk, List.map_cons, ih]
        by_cases hmem : k ∈ tl.map Prod.fst
        · rw [if_pos hmem, if_pos (by simp [hmem])]
        · rw [if_neg hmem,
            if_neg (by simp only [List.mem_cons]; rintro (h | h); exact hk h.symm; exact hmem h)]
          simp

/-- One dict update preserves distinctness of the keys. -/
theorem nodup_keys_updRow (m : List (String × HsnRow)) (k : String) (it : RawItem)
    (h : (m.map Prod.fst).Nodup) : ((updRow m k it).map Prod.fst).Nodup := by
  rw [keys_updRow]
  split_ifs with hmem
  · exact h
  · refine List.Nodup.append h (List.nodup_singleton k) ?_
    intro a ha hb
    simp only [List.mem_singleton] at hb
    exact hmem (hb ▸ ha)

/-- The aggregation fold preserves distinctness of the keys. -/
theorem nodup_keys_hsnFold (l : List RawItem) (m : List (String × HsnRow))
    (h : (m.map Prod.fst).Nodup) : ((hsnFold m l).map Prod.fst).Nodup := by
  induction l generalizing m with
  | nil => exact h
  | cons it tl ih => exact ih _ (nodup_keys_updRow _ _ _ h)

/-- One dict update adds the item's taxable value to the column total. -/
theorem rowsTaxableSum_updRow (m : List (String × HsnRow)) (k : String) (it : RawItem) :
    rowsTaxableSum (updRow m k it) = rowsTaxableSum m + it.taxable_value.getD 0 := by
  induction m with
  | nil => simp [updRow, rowsTaxableSum, addItem, emptyRow]
  | cons head tl ih =>
      obtain ⟨k0, r0⟩ := head
      by_cases hk : k0 = k
      · subst hk
        have hupd : updRow ((k0, r0) :: tl) k0 it = (k0, addItem r0 it) :: tl := by
          unfold updRow
          rw [if_pos rfl]
        rw [hupd]
        unfold rowsTaxableSum
        simp only [List.map_cons, List.sum_cons]
        have h : (addItem r0 it).total_taxable_value =
          r0.total_taxable_value + it.taxable_value.getD 0 := rfl
        rw [h]
        ring
      · simp only [updRow, if_neg hk, rowsTaxableSum, List.map_cons, List.sum_cons] at ih ⊢
        rw [ih]
        ring

/-- The aggregation fold accumulates every item's taxable value. -/
theorem rowsTaxableSum_hsnFold (l : List RawItem) (m : List (String × HsnRow)) :
    rowsTaxableSum (hsnFold m l) =
      rowsTaxableSum m + (l.map fun it => it.taxable_value.getD 0).sum := by
  induction l generalizing m with
  | nil => simp [hsnFold]
  | cons it tl ih =>
      have hstep : hsnFold m (it :: tl) = hsnFold (updRow m (keyOf it) it) tl := rfl
      rw [hstep, ih, rowsTaxableSum_updRow, List.map_cons, List.sum_cons]
      ring

/-- C8 amended: aggregation never skips a record — the taxable-value column
over all rows equals the sum over every item of every invoice, each missing
field silently replaced by the dict default (0, or the key Unknown); no
error or report accompanies the substitution. -/
theorem aggregation_keeps_all (invs : List InvoiceRec) :
    rowsTaxableSum (hsn_data invs) =
      ((allItems invs).map fun it => it.taxable_value.getD 0).sum := by
  unfold hsn_data
  rw [rowsTaxableSum_hsnFold]
  simp [rowsTaxableSum]

/-- C8 counterexample: the record whose line item lacks `hsn_code` and
`quantity` is not skipped and nothing is reported: it lands under the key
Unknown and its taxable value 50 is folded into the totals. -/
theorem malformed_not_skipped :
    hsnLookup (hsn_data malformedInvs) "Unknown" = some (addItem emptyRow malformedItem) ∧
    (addItem emptyRow malformedItem).total_taxable_value = 50 ∧
    rowsTaxableSum (hsn_data malformedInvs) = 50 := by
  refine ⟨rfl, ?_, ?_⟩
  · simp [addItem, emptyRow, malformedItem]
  · simp [hsn_data, hsnFold, malformedInvs, allItems, rowsTaxableSum, updRow, keyOf,
      malformedItem, addItem, emptyRow]

/-- C9: the aggregation has one row per HSN code (the key list is
duplicate-free); a code has a row exactly when some line matches it, and
that row's quantity, taxable value and tax columns are the sums over the
matching lines (each absent field entering as the dict default 0), while
the displayed average GST rate is the unweighted mean of the lines'
`gst_rate` values. -/
theorem hsn_summary (invs : List InvoiceRec) (code : String) :
    ((hsn_data invs).map Prod.fst).Nodup ∧
    (hsnLookup (hsn_data invs) code = none ↔ matchingItems (allItems invs) code = []) ∧
    ∀ r, hsnLookup (hsn_data invs) code = some r →
      r.total_quantity =
        ((matchingItems (allItems invs) code).map fun it => it.quantity.getD 0).sum ∧
      r.total_taxable_value =
        ((matchingItems (allItems invs) code).map fun it => it.taxable_value.getD 0).sum ∧
      r.total_tax =
        ((matchingItems (allItems invs) code).map fun it => it.tax_amount.getD 0).sum ∧
      r.avg_gst_rate = ((matchingItems (allItems invs) code).map fun it => it.gst_rate.getD 0) ∧
      avgGstRate r =
        ((matchingItems (allItems invs) code).map fun it => it.gst_rate.getD 0).sum /
          ((matchingItems (allItems invs) code).length : ℚ) := by
  have hlk : hsnLookup (hsn_data invs) code =
      mergeRow none (matchingItems (allItems invs) code) := by
    unfold hsn_data
    rw [hsnFold_lookup]
    rfl
  refine ⟨nodup_keys_hsnFold _ _ (by simp), ?_, ?_⟩
  · rw [hlk]
    cases matchingItems (allItems invs) code with
    | nil => simp [mergeRow]
    | cons a l => simp [mergeRow]
  · intro r hr
    rw [hlk] at hr
    cases hm : matchingItems (allItems invs) code with
    | nil =>
        rw [hm] at hr
        exact absurd hr (by simp [mergeRow])
    | cons a l =>
        rw [hm] at hr
        have hr2 : r = (a :: l).foldl addItem emptyRow := by
          have : some ((a :: l).foldl addItem emptyRow) = some r := hr
          exact (Option.some.injEq _ _ ▸ this).symm
        subst hr2
        have havg : ((a :: l).foldl addItem emptyRow).avg_gst_rate =
            (a :: l).map fun it => it.gst_rate.getD 0 := by
          rw [foldl_addItem_avg]
          simp [emptyRow]
        refine ⟨?_, ?_, ?_, havg, ?_⟩
        · rw [foldl_addItem_quantity]
          simp [emptyRow]
        · rw [foldl_addItem_taxable]
          simp [emptyRow]
        · rw [foldl_addItem_tax]
          simp [emptyRow]
        · unfold avgGstRate
          rw [havg]
          rw [if_neg (by simp)]
          simp

/-- Witness for C9 on two invoices sharing HSN code 8471: one row, with
quantity 5 = 2 + 3, taxable value 800 = 200 + 600, tax 108 = 36 + 72, and
average GST rate 15 = (18 + 12) / 2. -/
theorem hsn_summary_witness :
    hsnLookup (hsn_data hsnInvs) "8471" = some hsnRow0 ∧
    hsnRow0.total_quantity = 5 ∧
    hsnRow0.total_taxable_value = 800 ∧
    hsnRow0.total_tax = 108 ∧
    avgGstRate hsnRow0 = 15 := by
  have h := (hsn_summary hsnInvs "8471").2.2 hsnRow0 rfl
  refine ⟨rfl, ?_, ?_, ?_, ?_⟩
  · rw [h.1]
    norm_num [matchingItems, allItems, hsnInvs, hsnItemA, hsnItemB, keyOf]
  · rw [h.2.1]
    norm_num [matchingItems, allItems, hsnInvs, hsnItemA, hsnItemB, keyOf]
  · rw [h.2.2.1]
    norm_num [matchingItems, allItems, hsnInvs, hsnItemA, hsnItemB, keyOf]
  · rw [h.2.2.2.2]
    norm_num [matchingItems, allItems, hsnInvs, hsnItemA, hsnItemB, keyOf]

end InvoiceApp
